import Mathlib

/-
Verification of the pdd repository (prompt-driven development CLI) against its
natural-language specification.  Strings from the Python source are modelled as
`List Char`; Python floats (costs, budgets) are modelled as `ℚ`; fallible code
returns `Except`.  Python `str.strip()` is modelled with `Char.isWhitespace`
(space, tab, CR, LF), which covers every input appearing in the claims.
-/

namespace PDD

/-- Python `needle in haystack` style prefix test on character lists:
`startsWithL l p` is true iff `p` is an initial segment of `l`. -/
def startsWithL : List Char → List Char → Bool
  | _, [] => true
  | [], _ :: _ => false
  | a :: as, b :: bs => a = b && startsWithL as bs

/-- Python `pat in s` substring test: true iff `pat` occurs contiguously in `l`. -/
def containsL : List Char → List Char → Bool
  | [], pat => startsWithL [] pat
  | c :: t, pat => startsWithL (c :: t) pat || containsL t pat

/-- Python `str.strip()`: drop leading and trailing whitespace. -/
def trimL (l : List Char) : List Char :=
  ((l.dropWhile Char.isWhitespace).reverse.dropWhile Char.isWhitespace).reverse

/-- Suffix of `l` just after the first occurrence of `pat`, or `none` when `pat`
does not occur.  Models the regex engine scanning for a literal. -/
def dropAfter (pat : List Char) : List Char → Option (List Char)
  | [] => if startsWithL [] pat then some (([] : List Char).drop pat.length) else none
  | c :: t =>
      if startsWithL (c :: t) pat then some ((c :: t).drop pat.length)
      else dropAfter pat t

/-- Lazy capture up to the next occurrence of `pat`: returns the characters
before the first occurrence of `pat` and the suffix after it.  Models the
non-greedy `(.*?)` followed by a literal, under `re.DOTALL`. -/
def captureUntil (pat : List Char) : List Char → Option (List Char × List Char)
  | [] => if startsWithL [] pat then some ([], ([] : List Char).drop pat.length) else none
  | c :: t =>
      if startsWithL (c :: t) pat then some ([], (c :: t).drop pat.length)
      else (captureUntil pat t).map (fun r => (c :: r.1, r.2))

theorem startsWithL_length : ∀ (l p : List Char), startsWithL l p = true → p.length ≤ l.length := by
  intro l
  induction l with
  | nil =>
      intro p hp
      cases p with
      | nil => simp
      | cons b bs => simp [startsWithL] at hp
  | cons a as ih =>
      intro p hp
      cases p with
      | nil => simp
      | cons b bs =>
          simp only [startsWithL, Bool.and_eq_true] at hp
          simpa [List.length_cons] using Nat.succ_le_succ (ih bs hp.2)

theorem dropAfter_length {pat : List Char} (hp : pat ≠ []) :
    ∀ {l r : List Char}, dropAfter pat l = some r → r.length + pat.length ≤ l.length := by
  intro l
  induction l with
  | nil =>
      intro r h
      simp only [dropAfter] at h
      cases pat with
      | nil => exact absurd rfl hp
      | cons b bs => simp [startsWithL] at h
  | cons c t ih =>
      intro r h
      simp only [dropAfter] at h
      by_cases hs : startsWithL (c :: t) pat = true
      · simp only [hs, if_pos] at h
        cases h
        simp only [List.length_drop]
        have := startsWithL_length _ _ hs
        omega
      · simp only [hs] at h
        have := ih h
        simp only [List.length_cons]
        omega

theorem captureUntil_length {pat : List Char} :
    ∀ {l : List Char} {cap r : List Char},
      captureUntil pat l = some (cap, r) → r.length ≤ l.length := by
  intro l
  induction l with
  | nil =>
      intro cap r h
      simp only [captureUntil] at h
      by_cases hs : startsWithL [] pat = true
      · simp only [hs, if_pos] at h
        cases h
        simp
      · simp [hs] at h
  | cons c t ih =>
      intro cap r h
      simp only [captureUntil] at h
      by_cases hs : startsWithL (c :: t) pat = true
      · simp only [hs, if_pos] at h
        cases h
        simp [List.length_drop]
      · simp only [hs, if_neg, if_false] at h
        cases hct : captureUntil pat t with
        | none => rw [hct] at h; simp at h
        | some pr =>
            obtain ⟨cap2, r2⟩ := pr
            rw [hct] at h
            simp only [Option.map_some'] at h
            cases h
            have := ih hct
            simp only [List.length_cons]
            omega

/-- The triple-backtick fence delimiter. -/
def fenceL : List Char := "```".toList

theorem fenceL_ne_nil : fenceL ≠ [] := by decide

/-- Model of `re.findall(r'```(?:<language>)?(.*?)```', text, re.DOTALL)` from
`generate_test.py`: find an opening fence, optionally consume the language tag,
lazily capture up to the closing fence, and continue after it. -/
def findBlocks (lang : List Char) (s : List Char) : List (List Char) :=
  match hd : dropAfter fenceL s with
  | none => []
  | some rest =>
      let rest1 := if startsWithL rest lang then rest.drop lang.length else rest
      match hc : captureUntil fenceL rest1 with
      | none => []
      | some (cap, rest2) => cap :: findBlocks lang rest2
termination_by s.length
decreasing_by
  have h1 : rest.length + fenceL.length ≤ s.length := dropAfter_length fenceL_ne_nil hd
  have h2 : rest2.length ≤ rest1.length := captureUntil_length hc
  have h3 : rest1.length ≤ rest.length := by
    simp only [rest1]
    split <;> simp [List.length_drop]
  have hf : fenceL.length = 3 := by decide
  omega

/-- Python `max(blocks, key=len)` starting from a current best: on ties the
earlier element wins, as Python `max` returns the first maximal element. -/
def maxByLen : List Char → List (List Char) → List Char
  | best, [] => best
  | best, b :: t => maxByLen (if b.length > best.length then b else best) t

theorem maxByLen_spec (best : List Char) (l : List (List Char)) :
    (maxByLen best l = best ∨ maxByLen best l ∈ l) ∧
      best.length ≤ (maxByLen best l).length ∧
      ∀ x ∈ l, x.length ≤ (maxByLen best l).length := by
  induction l generalizing best with
  | nil => simp [maxByLen]
  | cons b t ih =>
      simp only [maxByLen]
      by_cases hb : b.length > best.length
      · simp only [hb, if_pos]
        obtain ⟨h1, h2, h3⟩ := ih b
        refine ⟨?_, ?_, ?_⟩
        · rcases h1 with h | h
          · right; simp [h]
          · right; simp [h]
        · omega
        · intro x hx
          rcases List.mem_cons.1 hx with rfl | hx
          · exact h2
          · exact h3 x hx
      · simp only [hb, if_neg, if_false]
        obtain ⟨h1, h2, h3⟩ := ih best
        refine ⟨?_, h2, ?_⟩
        · rcases h1 with h | h
          · left; exact h
          · right; simp [h]
        · intro x hx
          rcases List.mem_cons.1 hx with rfl | hx
          · omega
          · exact h3 x hx

/-- Python `s.replace(pat, "")`: remove every occurrence of `pat`, scanning
left to right without rescanning, as CPython does. -/
def removeAll (pat : List Char) (l : List Char) : List Char :=
  if hp : pat = [] then l
  else
    match l with
    | [] => []
    | c :: t =>
        if startsWithL (c :: t) pat then removeAll pat ((c :: t).drop pat.length)
        else c :: removeAll pat t
termination_by l.length
decreasing_by
  · have : pat.length ≥ 1 := by
      cases pat with
      | nil => exact absurd rfl hp
      | cons a as => simp
    simp only [List.length_drop, List.length_cons]
    omega
  · simp [List.length_cons]

/-! ### generate_test (src/pdd/generate_test.py)

The function `generate_test` validates its `code`/`example` arguments, loads a
prompt template, invokes the LLM, optionally continues an unfinished
generation, postprocesses, and applies a fallback extraction.  The LLM layer
(`llm_invoke`, `unfinished_prompt`, `continue_generation`, `postprocess`) is
external to this module and is abstracted as an oracle record `LlmEnv`;
console printing and prompt preprocessing do not affect the returned values
and are elided. -/

/-- Oracle record abstracting the external collaborators of `generate_test`:
the loaded template, the outcome of `llm_invoke` (either an exception message
or a result/cost/model), the `unfinished_prompt` verdict and cost, the
`continue_generation` output, and the `postprocess` extraction. -/
structure LlmEnv where
  template : Option (List Char)
  llm_exc : Option String
  llm_result : List Char
  llm_cost : ℚ
  llm_model : List Char
  is_finished : Bool
  check_cost : ℚ
  cont_text : List Char
  cont_cost : ℚ
  cont_model : List Char
  pp_extracted : List Char
  pp_cost : ℚ

/-- Python `x is not None and len(x.strip()) > 0` from generate_test.py
lines 79-80: an argument counts as provided iff it is non-None and not
whitespace-only. -/
def pyHasContent : Option (List Char) → Bool
  | none => false
  | some s => !(trimL s).isEmpty

/-- Error message raised when both `code` and `example` are provided. -/
def mutualExclusiveMsg : String :=
  "Parameters \x27code\x27 and \x27example\x27 are mutually exclusive. Please provide only one."

/-- Error message raised when neither `code` nor `example` is provided. -/
def neitherProvidedMsg : String := "Neither \x27code\x27 nor \x27example\x27 was provided"

/-- The literal `"import "` searched for in the raw LLM output. -/
def importMarker : List Char := "import ".toList

/-- The literal `"def test_"` searched for in the raw LLM output. -/
def defTestMarker : List Char := "def test_".toList

/-- Fallback extraction from generate_test.py lines 209-221: when the
postprocess result is empty after stripping or still contains a fence, find
the longest fenced block of the raw text; failing that, if the raw text looks
like code (`"import "` or `"def test_"`), return it with fence markers
removed. -/
def fallback_extract (language extracted_code current_text : List Char) : List Char :=
  if (trimL extracted_code).isEmpty || containsL extracted_code fenceL then
    match findBlocks language current_text with
    | b :: t => trimL (maxByLen b t)
    | [] =>
        if containsL current_text importMarker || containsL current_text defTestMarker then
          trimL (removeAll fenceL (removeAll (fenceL ++ language) current_text))
        else extracted_code
  else extracted_code

/-- Steps 4-6 of generate_test.py: take the initial LLM output and cost, run
the unfinished-output check on non-empty output, and continue generation when
the output is incomplete.  Returns `(current_text, total_cost, model_name)`
entering step 7. -/
def generate_test_state (env : LlmEnv) : List Char × ℚ × List Char :=
  let total0 : ℚ := 0 + env.llm_cost
  if !(trimL env.llm_result).isEmpty then
    let total1 := total0 + env.check_cost
    if !env.is_finished then (env.cont_text, total1 + env.cont_cost, env.cont_model)
    else (env.llm_result, total1, env.llm_model)
  else (env.llm_result, total0, env.llm_model)

/-- Shallow embedding of `generate_test` (generate_test.py lines 40-230):
argument validation, numeric-range validation, template loading, LLM
invocation via the oracle, continuation handling, postprocess cost
accounting, and fallback extraction. -/
def generate_test (env : LlmEnv) (code exampleArg : Option (List Char))
    (strength _temperature time : ℚ) (language : List Char) :
    Except String (List Char × ℚ × List Char) :=
  let has_code := pyHasContent code
  let has_example := pyHasContent exampleArg
  if has_code && has_example then
    .error mutualExclusiveMsg
  else if !has_code && !has_example then
    .error neitherProvidedMsg
  else if ¬(0 ≤ strength ∧ strength ≤ 1) then
    .error "Strength must be between 0 and 1."
  else if ¬(0 ≤ time ∧ time ≤ 1) then
    .error "Time must be between 0 and 1."
  else
    match env.template with
    | none => .error "Failed to load generate_test_LLM prompt template"
    | some _ =>
      match env.llm_exc with
      | some e => .error ("Failed to invoke LLM: " ++ e)
      | none =>
          let st := generate_test_state env
          let extracted := fallback_extract language env.pp_extracted st.1
          .ok (extracted, st.2.1 + env.pp_cost, st.2.2)

/-- Boolean success test for `Except` results. -/
def exceptIsOk {ε α : Type} : Except ε α → Bool
  | .ok _ => true
  | .error _ => false

/-- Oracle with empty outputs, a present template and no LLM exception, used
to instantiate theorems at concrete inputs. -/
def trivialEnv : LlmEnv :=
  { template := some [], llm_exc := none, llm_result := [], llm_cost := 0,
    llm_model := [], is_finished := true, check_cost := 0, cont_text := [],
    cont_cost := 0, cont_model := [], pp_extracted := [], pp_cost := 0 }

theorem generate_test_ok (env : LlmEnv) (code exampleArg : Option (List Char))
    (strength temperature time : ℚ) (language : List Char)
    (hval : pyHasContent code ≠ pyHasContent exampleArg)
    (hstr : 0 ≤ strength ∧ strength ≤ 1) (htime : 0 ≤ time ∧ time ≤ 1)
    (htpl : env.template.isSome = true) (hexc : env.llm_exc = none) :
    generate_test env code exampleArg strength temperature time language
      = .ok (fallback_extract language env.pp_extracted (generate_test_state env).1,
          (generate_test_state env).2.1 + env.pp_cost, (generate_test_state env).2.2) := by
  obtain ⟨tpl, htpl'⟩ := Option.isSome_iff_exists.mp htpl
  unfold generate_test
  cases hc : pyHasContent code <;> cases he : pyHasContent exampleArg <;>
    simp only [hc, he] at hval ⊢ <;>
    first
    | exact absurd rfl hval
    | · simp only [Bool.and_self, Bool.and_false, Bool.false_and, Bool.and_true,
        Bool.true_and, Bool.not_true, Bool.not_false, if_false, Bool.false_eq_true,
        if_neg, reduceIte]
        rw [if_neg (not_not_intro hstr), if_neg (not_not_intro htime), htpl', hexc]

/-- C9: `generate_test` rejects, before any LLM invocation (the outcome below
does not depend on the oracle `env`), exactly the argument combinations where
`code` and `example` are both provided or both absent, where `None` and
whitespace-only strings count as absent; when exactly one is provided the
validation passes and (given valid ranges, a loadable template and a
non-raising LLM call) the function returns a result. -/
theorem generate_test_mutual_exclusion (env : LlmEnv)
    (code exampleArg : Option (List Char))
    (strength temperature time : ℚ) (language : List Char) :
    (pyHasContent code = true ∧ pyHasContent exampleArg = true →
        generate_test env code exampleArg strength temperature time language
          = .error mutualExclusiveMsg) ∧
    (pyHasContent code = false ∧ pyHasContent exampleArg = false →
        generate_test env code exampleArg strength temperature time language
          = .error neitherProvidedMsg) ∧
    (pyHasContent code ≠ pyHasContent exampleArg →
      (0 ≤ strength ∧ strength ≤ 1) → (0 ≤ time ∧ time ≤ 1) →
      env.template.isSome = true → env.llm_exc = none →
      exceptIsOk (generate_test env code exampleArg strength temperature time language)
        = true) := by
  refine ⟨?_, ?_, ?_⟩
  · rintro ⟨h1, h2⟩
    unfold generate_test
    simp [h1, h2]
  · rintro ⟨h1, h2⟩
    unfold generate_test
    simp [h1, h2]
  · intro hval hstr htime htpl hexc
    rw [generate_test_ok env code exampleArg strength temperature time language
      hval hstr htime htpl hexc]
    rfl

/-- C9 witness: two whitespace-only arguments are rejected with the
"Neither provided" message, while a whitespace-only `code` together with a
real `example` is accepted. -/
theorem generate_test_mutual_exclusion_witness :
    generate_test trivialEnv (some " \t ".toList) (some "  ".toList)
        (1/2) 0 (1/2) "python".toList = .error neitherProvidedMsg
    ∧ exceptIsOk (generate_test trivialEnv (some "   ".toList)
        (some "usage = add(2, 3)".toList) (1/2) 0 (1/2) "python".toList) = true := by
  constructor
  · exact (generate_test_mutual_exclusion trivialEnv _ _ _ _ _ _).2.1
      ⟨by decide, by decide⟩
  · exact (generate_test_mutual_exclusion trivialEnv _ _ _ _ _ _).2.2
      (by decide) ⟨by norm_num, by norm_num⟩ ⟨by norm_num, by norm_num⟩ rfl rfl

/-- C10: when the postprocess extraction is empty after stripping or still
contains a fence, `generate_test` returns the longest fenced block of the raw
output (stripped), where on ties the earliest longest block wins as in Python
`max`; when the raw output has no fenced block but contains `"import "` or
`"def test_"`, it returns the raw output with fence markers removed and
stripped. -/
theorem generate_test_fallback_extraction (env : LlmEnv)
    (code exampleArg : Option (List Char))
    (strength temperature time : ℚ) (language : List Char)
    (hval : pyHasContent code ≠ pyHasContent exampleArg)
    (hstr : 0 ≤ strength ∧ strength ≤ 1) (htime : 0 ≤ time ∧ time ≤ 1)
    (htpl : env.template.isSome = true) (hexc : env.llm_exc = none)
    (hcond : (trimL env.pp_extracted).isEmpty = true
      ∨ containsL env.pp_extracted fenceL = true) :
    (∀ b t, findBlocks language (generate_test_state env).1 = b :: t →
        generate_test env code exampleArg strength temperature time language
            = .ok (trimL (maxByLen b t),
                (generate_test_state env).2.1 + env.pp_cost, (generate_test_state env).2.2)
          ∧ maxByLen b t ∈ b :: t
          ∧ ∀ x ∈ b :: t, x.length ≤ (maxByLen b t).length) ∧
    (findBlocks language (generate_test_state env).1 = [] →
      (containsL (generate_test_state env).1 importMarker = true
        ∨ containsL (generate_test_state env).1 defTestMarker = true) →
      generate_test env code exampleArg strength temperature time language
        = .ok (trimL (removeAll fenceL (removeAll (fenceL ++ language)
              (generate_test_state env).1)),
            (generate_test_state env).2.1 + env.pp_cost, (generate_test_state env).2.2)) := by
  have hok := generate_test_ok env code exampleArg strength temperature time language
    hval hstr htime htpl hexc
  have hcondb : ((trimL env.pp_extracted).isEmpty
      || containsL env.pp_extracted fenceL) = true := by
    rcases hcond with h | h <;> simp [h]
  constructor
  · intro b t hbt
    have hfb : fallback_extract language env.pp_extracted (generate_test_state env).1
        = trimL (maxByLen b t) := by
      unfold fallback_extract
      rw [if_pos hcondb, hbt]
    obtain ⟨hmem, _, hmax⟩ := maxByLen_spec b t
    refine ⟨by rw [hok, hfb], ?_, ?_⟩
    · rcases hmem with h | h
      · rw [h]; exact List.mem_cons_self _ _
      · exact List.mem_cons_of_mem _ h
    · intro x hx
      rcases List.mem_cons.1 hx with rfl | hx
      · exact (maxByLen_spec x t).2.1
      · exact (maxByLen_spec b t).2.2 x hx
  · intro hnil hmark
    have hfb : fallback_extract language env.pp_extracted (generate_test_state env).1
        = trimL (removeAll fenceL (removeAll (fenceL ++ language)
            (generate_test_state env).1)) := by
      unfold fallback_extract
      rw [if_pos hcondb, hnil]
      have : (containsL (generate_test_state env).1 importMarker
          || containsL (generate_test_state env).1 defTestMarker) = true := by
        rcases hmark with h | h <;> simp [h]
      rw [if_pos this]
    rw [hok, hfb]

/-- Oracle for the C10 witness: the postprocess extraction is empty, and the
raw LLM output has no fenced block but contains `"import "`. -/
def fallbackEnv : LlmEnv :=
  { trivialEnv with llm_result := "import math\nx = math.sqrt(4)".toList }

/-- C10 witness: with an empty postprocess extraction and a fence-free raw
output containing `"import "`, `generate_test` returns the raw output with
fence markers removed. -/
theorem generate_test_fallback_extraction_witness :
    generate_test fallbackEnv (some "def add(a, b): return a + b".toList) none
        (1/2) 0 (1/2) "python".toList
      = .ok (trimL (removeAll fenceL (removeAll (fenceL ++ "python".toList)
            (generate_test_state fallbackEnv).1)),
          (generate_test_state fallbackEnv).2.1 + fallbackEnv.pp_cost,
          (generate_test_state fallbackEnv).2.2) := by
  have hnil : findBlocks "python".toList (generate_test_state fallbackEnv).1 = [] := by
    have hcur : (generate_test_state fallbackEnv).1
        = "import math\nx = math.sqrt(4)".toList := by decide
    rw [hcur, findBlocks.eq_def]
    have h : dropAfter fenceL "import math\nx = math.sqrt(4)".toList = none := by decide
    rw [h]
  exact (generate_test_fallback_extraction fallbackEnv _ _ _ _ _ _
      (by decide) ⟨by norm_num, by norm_num⟩ ⟨by norm_num, by norm_num⟩ rfl rfl
      (Or.inl (by decide))).2 hnil (Or.inl (by decide))

/-! ### LLM invocation retry loop and provider payload mutation
(src/test_groq_mutation_bug.py)

The repository ships a reproduction script for its "Bug #11" that simulates,
without API calls, the exact model-retry flow of `llm_invoke.py` lines
1865-2903: the Groq adapter injects a JSON-schema instruction into the system
message of the shared `formatted_messages` list in place, so every later
candidate model sees the corrupted list.  The script also contains the fixed
flow, which injects into a copy.  Both flows are embedded below; mutation of
a shared Python list is modelled by threading the list value, and copying by
not threading it. -/

/-- One role/content record of the `formatted_messages` list. -/
structure Msg where
  role : List Char
  content : List Char
deriving DecidableEq

/-- Provider tag of a candidate model. -/
inductive Provider
  | groq
  | openai
  | anthropic
deriving DecidableEq

/-- Groq schema instruction from `test_groq_mutation_bug.py` lines 45-49. -/
def schemaInstruction : List Char :=
  ("You must respond with valid JSON matching this schema:\n```json\n\x7b\"type\": \"object\", \"properties\": \x7b\"code\": \x7b\"type\": \"string\"\x7d\x7d\x7d\n```\nRespond ONLY with the JSON object, no other text.").toList

/-- Groq structured-output handling (`llm_invoke.py` lines 2086-2108 as
reproduced at lines 85-91 of the script): prepend the schema instruction to
the system message when one exists, else insert a new system message. -/
def groqInject (msgs : List Msg) : List Msg :=
  match msgs with
  | m :: rest =>
      if m.role = "system".toList then
        { m with content := schemaInstruction ++ "\n\n".toList ++ m.content } :: rest
      else ⟨"system".toList, schemaInstruction⟩ :: m :: rest
  | [] => [⟨"system".toList, schemaInstruction⟩]

/-- Buggy retry loop (`simulate_llm_invoke_bug`): the Groq payload is built
on the shared message list itself, so the injection leaks into the list every
later candidate reads.  Returns, per candidate, the pair (shared list as seen
on entry, request payload), plus the final shared list. -/
def simulate_llm_invoke_bug : List Provider → List Msg → List (List Msg × List Msg) × List Msg
  | [], msgs => ([], msgs)
  | p :: rest, msgs =>
      let payload := if p = Provider.groq then groqInject msgs else msgs
      let r := simulate_llm_invoke_bug rest payload
      ((msgs, payload) :: r.1, r.2)

/-- Fixed retry loop (`simulate_fixed_version`): the Groq payload is built on
a copy (`[dict(m) for m in ...]`), so the shared list is passed on unchanged. -/
def simulate_fixed_version : List Provider → List Msg → List (List Msg × List Msg) × List Msg
  | [], msgs => ([], msgs)
  | p :: rest, msgs =>
      let payload := if p = Provider.groq then groqInject msgs else msgs
      let r := simulate_fixed_version rest msgs
      ((msgs, payload) :: r.1, r.2)

/-- The message list entering the retry loop (script lines 32-35). -/
def originalMessages : List Msg :=
  [⟨"system".toList, "You are a helpful coding assistant.".toList⟩,
   ⟨"user".toList, "Write a function that adds two numbers.".toList⟩]

/-- The candidate models of the reproduction (script lines 38-42). -/
def bugCandidates : List Provider := [Provider.groq, Provider.openai, Provider.anthropic]

/-- C1 (code bug): in the retry loop as shipped, after the Groq candidate
fails, the shared message list seen by the openai and anthropic candidates is
the Groq-mutated list, which differs from the original — refuting the claimed
non-mutation invariant on the code; the fixed flow of the same script
preserves the original list for every candidate. -/
theorem llm_invoke_shared_list_mutation_code_bug :
    (simulate_llm_invoke_bug bugCandidates originalMessages).1.map Prod.fst
        = [originalMessages, groqInject originalMessages, groqInject originalMessages]
    ∧ groqInject originalMessages ≠ originalMessages
    ∧ (simulate_fixed_version bugCandidates originalMessages).1.map Prod.fst
        = [originalMessages, originalMessages, originalMessages] := by
  refine ⟨rfl, ?_, rfl⟩
  decide

/-! ### fix command per-file loop (src/pdd/commands/fix.py lines 122-194)

The `fix` click command processes each unit-test file sequentially against a
shared budget: before each file it computes `remaining_budget = budget -
total_cost`, stops with `success = False` once that is ≤ 0, and otherwise
calls `fix_main` with the remaining (not the original) budget.  `fix_main`
lives outside this module and is abstracted as an oracle. -/

/-- Result tuple of one `fix_main` call:
`(success, fixed_test, fixed_code, attempts, cost, model)`. -/
structure FixOutcome where
  success : Bool
  fixed_test : List Char
  fixed_code : List Char
  attempts : Nat
  cost : ℚ
  model : List Char

/-- Record of one attempted `fix_main` call: the position of the file in the
argument list, the cumulative cost before the call, and the budget passed. -/
structure FixCall where
  fileIdx : Nat
  costBefore : ℚ
  givenBudget : ℚ

/-- The mutable loop state of `fix`: the `total_cost` accumulator and the
`results` dict, plus a trace of attempted calls and a flag recording whether
the loop stopped on budget exhaustion. -/
structure FixState where
  total_cost : ℚ
  success : Bool
  attempts : Nat
  fixed_test : List Char
  fixed_code : List Char
  last_model : List Char
  calls : List FixCall
  stoppedOnBudget : Bool

/-- Initial tracking state of `fix` (fix.py lines 122-132). -/
def initFixState : FixState :=
  { total_cost := 0, success := true, attempts := 0, fixed_test := [],
    fixed_code := [], last_model := "unknown".toList, calls := [],
    stoppedOnBudget := false }

/-- The `for test_file in unit_test_files` loop of `fix` (fix.py lines
135-189).  `fm remaining idx f` abstracts `fix_main` called on file `f` (at
position `idx`) with the remaining budget; an `Except.error` models an
exception, which is absorbed and breaks the loop. -/
def fix_go (fm : ℚ → Nat → List Char → Except String FixOutcome) (budget : ℚ) :
    Nat → FixState → List (List Char) → FixState
  | _, st, [] => st
  | idx, st, f :: rest =>
      let remaining := budget - st.total_cost
      if remaining ≤ 0 then { st with success := false, stoppedOnBudget := true }
      else
        match fm remaining idx f with
        | .error _ => { st with success := false }
        | .ok o =>
            let st' : FixState :=
              { total_cost := st.total_cost + o.cost,
                success := st.success && o.success,
                attempts := st.attempts + o.attempts,
                fixed_test := if o.success then o.fixed_test else st.fixed_test,
                fixed_code := if o.success then o.fixed_code else st.fixed_code,
                last_model := o.model,
                calls := st.calls ++ [⟨idx, st.total_cost, remaining⟩],
                stoppedOnBudget := st.stoppedOnBudget }
            fix_go fm budget (idx + 1) st' rest

/-- The whole per-file loop of the `fix` command. -/
def run_fix (fm : ℚ → Nat → List Char → Except String FixOutcome) (budget : ℚ)
    (files : List (List Char)) : FixState :=
  fix_go fm budget 0 initFixState files

theorem fix_go_cost_le (fm : ℚ → Nat → List Char → Except String FixOutcome)
    (budget : ℚ) (hc : ∀ b i f o, fm b i f = .ok o → 0 ≤ o.cost) :
    ∀ (files : List (List Char)) (idx : Nat) (st : FixState),
      st.total_cost ≤ (fix_go fm budget idx st files).total_cost := by
  intro files
  induction files with
  | nil => intro idx st; simp [fix_go]
  | cons f rest ih =>
      intro idx st
      simp only [fix_go]
      by_cases hr : budget - st.total_cost ≤ 0
      · simp [hr]
      · simp only [hr, if_neg, if_false]
        cases hfm : fm (budget - st.total_cost) idx f with
        | error e => simp
        | ok o =>
            have h0 : 0 ≤ o.cost := hc _ _ _ _ hfm
            have := ih (idx + 1)
              { total_cost := st.total_cost + o.cost,
                success := st.success && o.success,
                attempts := st.attempts + o.attempts,
                fixed_test := if o.success then o.fixed_test else st.fixed_test,
                fixed_code := if o.success then o.fixed_code else st.fixed_code,
                last_model := o.model,
                calls := st.calls ++ [⟨idx, st.total_cost, budget - st.total_cost⟩],
                stoppedOnBudget := st.stoppedOnBudget }
            simp only at this
            linarith

theorem fix_go_mono (fm : ℚ → Nat → List Char → Except String FixOutcome)
    (budget : ℚ) (hc : ∀ b i f o, fm b i f = .ok o → 0 ≤ o.cost) :
    ∀ (l1 l2 : List (List Char)) (idx : Nat) (st : FixState),
      (fix_go fm budget idx st l1).total_cost
        ≤ (fix_go fm budget idx st (l1 ++ l2)).total_cost := by
  intro l1
  induction l1 with
  | nil =>
      intro l2 idx st
      simpa [fix_go] using fix_go_cost_le fm budget hc l2 idx st
  | cons f rest ih =>
      intro l2 idx st
      simp only [List.cons_append, fix_go]
      by_cases hr : budget - st.total_cost ≤ 0
      · simp [hr]
      · simp only [hr, if_neg, if_false]
        cases hfm : fm (budget - st.total_cost) idx f with
        | error e => simp
        | ok o => exact ih l2 (idx + 1) _

theorem fix_go_calls_ok (fm : ℚ → Nat → List Char → Except String FixOutcome)
    (budget : ℚ) :
    ∀ (files : List (List Char)) (idx : Nat) (st : FixState),
      (∀ c ∈ st.calls, c.givenBudget = budget - c.costBefore ∧ 0 < c.givenBudget) →
      ∀ c ∈ (fix_go fm budget idx st files).calls,
        c.givenBudget = budget - c.costBefore ∧ 0 < c.givenBudget := by
  intro files
  induction files with
  | nil => intro idx st h; simpa [fix_go] using h
  | cons f rest ih =>
      intro idx st h
      simp only [fix_go]
      by_cases hr : budget - st.total_cost ≤ 0
      · simpa [hr] using h
      · simp only [hr, if_neg, if_false]
        cases hfm : fm (budget - st.total_cost) idx f with
        | error e => simpa using h
        | ok o =>
            apply ih (idx + 1)
            intro c hcm
            simp only [List.mem_append, List.mem_singleton] at hcm
            rcases hcm with hcm | rfl
            · exact h c hcm
            · exact ⟨rfl, by simpa using lt_of_not_le hr⟩

theorem fix_go_idx_trace (fm : ℚ → Nat → List Char → Except String FixOutcome)
    (budget : ℚ) :
    ∀ (files : List (List Char)) (idx : Nat) (st : FixState),
      ∃ k, (fix_go fm budget idx st files).calls.map FixCall.fileIdx
        = st.calls.map FixCall.fileIdx ++ List.range' idx k := by
  intro files
  induction files with
  | nil => intro idx st; exact ⟨0, by simp [fix_go]⟩
  | cons f rest ih =>
      intro idx st
      simp only [fix_go]
      by_cases hr : budget - st.total_cost ≤ 0
      · exact ⟨0, by simp [hr]⟩
      · simp only [hr, if_neg, if_false]
        cases hfm : fm (budget - st.total_cost) idx f with
        | error e => exact ⟨0, by simp⟩
        | ok o =>
            obtain ⟨k, hk⟩ := ih (idx + 1)
              { total_cost := st.total_cost + o.cost,
                success := st.success && o.success,
                attempts := st.attempts + o.attempts,
                fixed_test := if o.success then o.fixed_test else st.fixed_test,
                fixed_code := if o.success then o.fixed_code else st.fixed_code,
                last_model := o.model,
                calls := st.calls ++ [⟨idx, st.total_cost, budget - st.total_cost⟩],
                stoppedOnBudget := st.stoppedOnBudget }
            refine ⟨k + 1, ?_⟩
            rw [hk]
            simp [List.range'_succ, List.map_append]

theorem fix_go_budget_stop (fm : ℚ → Nat → List Char → Except String FixOutcome)
    (budget : ℚ) :
    ∀ (files : List (List Char)) (idx : Nat) (st : FixState),
      st.stoppedOnBudget = false →
      (fix_go fm budget idx st files).stoppedOnBudget = true →
      (fix_go fm budget idx st files).success = false
        ∧ (fix_go fm budget idx st files).calls.length < st.calls.length + files.length := by
  intro files
  induction files with
  | nil =>
      intro idx st h0 h1
      simp [fix_go] at h1
      exact absurd h1 (by simp [h0])
  | cons f rest ih =>
      intro idx st h0 h1
      simp only [fix_go] at h1 ⊢
      by_cases hr : budget - st.total_cost ≤ 0
      · rw [if_pos hr]
        refine ⟨rfl, ?_⟩
        simp only [List.length_cons]
        omega
      · rw [if_neg hr] at h1 ⊢
        revert h1
        cases hfm : fm (budget - st.total_cost) idx f with
        | error e =>
            intro h1
            dsimp only at h1
            simp [h0] at h1
        | ok o =>
            intro h1
            dsimp only at h1 ⊢
            have := ih (idx + 1) _ (by simpa using h0) h1
            refine ⟨this.1, ?_⟩
            have h2 := this.2
            simp at h2 ⊢
            omega

/-- C5: in the `fix` per-file loop, given that `fix_main` reports nonnegative
costs, (1) the cumulative cost never decreases as more files are processed,
(2) every attempted call receives exactly the remaining budget
`budget - total_cost`, which was checked to be positive, (3) if the loop
stopped on budget exhaustion then overall success is `false` and at least one
file was never attempted, and (4) the attempted files are exactly an initial
segment of the argument list, so no later file is attempted after the stop. -/
theorem fix_budget_discipline (fm : ℚ → Nat → List Char → Except String FixOutcome)
    (budget : ℚ) (files : List (List Char))
    (hc : ∀ b i f o, fm b i f = .ok o → 0 ≤ o.cost) :
    (∀ l2, (run_fix fm budget files).total_cost
        ≤ (run_fix fm budget (files ++ l2)).total_cost)
    ∧ (∀ c ∈ (run_fix fm budget files).calls,
        c.givenBudget = budget - c.costBefore ∧ 0 < c.givenBudget)
    ∧ ((run_fix fm budget files).stoppedOnBudget = true →
        (run_fix fm budget files).success = false
          ∧ (run_fix fm budget files).calls.length < files.length)
    ∧ (run_fix fm budget files).calls.map FixCall.fileIdx
        = List.range (run_fix fm budget files).calls.length := by
  refine ⟨?_, ?_, ?_, ?_⟩
  · intro l2
    exact fix_go_mono fm budget hc files l2 0 initFixState
  · exact fix_go_calls_ok fm budget files 0 initFixState (by simp [initFixState])
  · intro h
    have := fix_go_budget_stop fm budget files 0 initFixState (by simp [initFixState]) h
    simpa [run_fix, initFixState] using this
  · obtain ⟨k, hk⟩ := fix_go_idx_trace fm budget files 0 initFixState
    have hk' : (run_fix fm budget files).calls.map FixCall.fileIdx = List.range' 0 k := by
      rw [run_fix, hk]
      simp [initFixState]
    have hlen : (run_fix fm budget files).calls.length = k := by
      have := congrArg List.length hk'
      simpa using this
    rw [hk', hlen, List.range_eq_range']

/-- Oracle for the C5 witness: every `fix_main` call succeeds at cost 3/5. -/
def witnessFixMain (_b : ℚ) (_i : Nat) (_f : List Char) : Except String FixOutcome :=
  .ok { success := true, fixed_test := [], fixed_code := [], attempts := 1,
        cost := 3/5, model := "m".toList }

/-- C5 witness: with budget 1 and three files at cost 3/5 each, the loop
stops before the third file with overall success `false`. -/
theorem fix_budget_discipline_witness :
    (run_fix witnessFixMain 1 ["a".toList, "b".toList, "c".toList]).success = false
      ∧ (run_fix witnessFixMain 1 ["a".toList, "b".toList, "c".toList]).calls.length
          < (["a".toList, "b".toList, "c".toList] : List (List Char)).length :=
  (fix_budget_discipline witnessFixMain 1 ["a".toList, "b".toList, "c".toList]
      (fun b i f o h => by
        simp only [witnessFixMain, Except.ok.injEq] at h
        rw [← h]
        norm_num)).2.2.1
    (by norm_num [run_fix, fix_go, witnessFixMain, initFixState])

/-! ### cmd_test_main: cloud/local execution strategy and exception dispatch
(src/pdd/cmd_test_main.py)

Step 7 of `cmd_test_main` (lines 137-231) attempts a cloud API call unless
local mode is forced, and falls back to local execution when any part of the
cloud path raises: a missing JWT token (`ValueError` raised in the try
block), a network exception from `requests.post`, a non-2xx status
(`raise_for_status`), or an unparseable body (`response.json()` raising).
The environment is abstracted as a `CloudOutcome`; the local LLM execution
(`generate_test` / `increase_tests`) is abstracted as a result tuple. -/

/-- Outcome of the cloud execution path of `cmd_test_main`. -/
inductive CloudOutcome
  | noToken
  | netException (msg : List Char)
  | httpError (status : Nat)
  | badJson
  | ok (generatedTest : List Char) (totalCost : ℚ) (modelName : List Char)

/-- A cloud outcome counts as failed when the try block raises: missing JWT
token, network exception, non-2xx status, or a malformed (unparseable)
response body. -/
def cloudFailed : CloudOutcome → Bool
  | .ok _ _ _ => false
  | _ => true

/-- Observable outcome of the execution-strategy block: the generated test,
cost and model actually used, plus whether the cloud call was attempted and
whether local execution ran. -/
structure ExecOutcome where
  generated : List Char
  cost : ℚ
  model : List Char
  cloudAttempted : Bool
  localInvoked : Bool

/-- Shallow embedding of cmd_test_main.py lines 137-231: try the cloud unless
`use_local`; any exception in the cloud block sets `cloud_success = False`;
local execution runs iff `use_local or not cloud_success`. -/
def cmd_test_execution (use_local : Bool) (cloud : CloudOutcome)
    (localExec : List Char × ℚ × List Char) : ExecOutcome :=
  let init : ExecOutcome :=
    { generated := [], cost := 0, model := "unknown".toList,
      cloudAttempted := false, localInvoked := false }
  let afterCloud :=
    if use_local then (init, false)
    else
      match cloud with
      | .ok g c m =>
          ({ init with generated := g, cost := c, model := m, cloudAttempted := true }, true)
      | _ => ({ init with cloudAttempted := true }, false)
  if use_local || !afterCloud.2 then
    { afterCloud.1 with
        generated := localExec.1
        cost := localExec.2.1
        model := localExec.2.2
        localInvoked := true }
  else afterCloud.1

/-- C6: when local mode is not forced, the cloud call is attempted; every
failing cloud outcome (missing token, network exception, non-2xx status,
malformed body) falls back transparently to local execution, whose result is
returned; a successful cloud call never invokes local execution and returns
the cloud result. -/
theorem cmd_test_cloud_fallback (cloud : CloudOutcome)
    (localExec : List Char × ℚ × List Char) :
    (cmd_test_execution false cloud localExec).cloudAttempted = true
    ∧ (cloudFailed cloud = true →
        (cmd_test_execution false cloud localExec).localInvoked = true
          ∧ (cmd_test_execution false cloud localExec).generated = localExec.1
          ∧ (cmd_test_execution false cloud localExec).cost = localExec.2.1
          ∧ (cmd_test_execution false cloud localExec).model = localExec.2.2)
    ∧ (cloudFailed cloud = false →
        (cmd_test_execution false cloud localExec).localInvoked = false) := by
  cases cloud <;> simp [cmd_test_execution, cloudFailed]

/-- C6 witness: a network exception falls back to the local result, and a
successful cloud call does not invoke local execution. -/
theorem cmd_test_cloud_fallback_witness :
    (cmd_test_execution false (CloudOutcome.netException "timeout".toList)
        ("local test".toList, 1, "gpt-4".toList)).localInvoked = true
    ∧ (cmd_test_execution false
        (CloudOutcome.ok "cloud test".toList 2 "cloud-model".toList)
        ("local test".toList, 1, "gpt-4".toList)).localInvoked = false :=
  ⟨((cmd_test_cloud_fallback (CloudOutcome.netException "timeout".toList)
      ("local test".toList, 1, "gpt-4".toList)).2.1 rfl).1,
    (cmd_test_cloud_fallback (CloudOutcome.ok "cloud test".toList 2 "cloud-model".toList)
      ("local test".toList, 1, "gpt-4".toList)).2.2 rfl⟩

/-! The outer exception handler of `cmd_test_main` (lines 268-272) is
`except click.Abort: raise` followed by `except Exception as e:
return ("", 0.0, f"Error: <e>")`.  Under Python semantics `click.Abort`
derives from `RuntimeError`, hence from `Exception`, so the explicit re-raise
clause is what lets it escape; `KeyboardInterrupt` and `SystemExit` derive
from `BaseException` but not `Exception`, so neither clause catches them. -/

/-- Exceptions relevant to the `cmd_test_main` boundary handler. -/
inductive PyExc
  | clickAbort
  | keyboardInterrupt
  | systemExit
  | otherExc (msg : String)
deriving DecidableEq

/-- Which modelled exceptions are subclasses of Python `Exception`. -/
def isExceptionSubclass : PyExc → Bool
  | .clickAbort => true
  | .keyboardInterrupt => false
  | .systemExit => false
  | .otherExc _ => true

/-- Message text of an exception (`str(e)`). -/
def excMessage : PyExc → String
  | .clickAbort => "Aborted"
  | .keyboardInterrupt => "KeyboardInterrupt"
  | .systemExit => "SystemExit"
  | .otherExc m => m

/-- Outer exception dispatch of `cmd_test_main` applied to an exception `e`
raised by the body: re-raise `click.Abort`, absorb any other `Exception`
subclass into the structured tuple, and let everything else propagate. -/
def cmd_test_main_dispatch (e : PyExc) : Except PyExc (String × ℚ × String) :=
  if e = PyExc.clickAbort then .error e
  else if isExceptionSubclass e then .ok ("", 0, "Error: " ++ excMessage e)
  else .error e

/-- C7: `click.Abort`, `KeyboardInterrupt` and `SystemExit` propagate out of
`cmd_test_main` uncaught, while every other exception reaching the boundary
handler is absorbed into the tuple `("", 0.0, "Error: <message>")`. -/
theorem cmd_test_main_interrupt_propagation :
    cmd_test_main_dispatch PyExc.clickAbort = .error PyExc.clickAbort
    ∧ cmd_test_main_dispatch PyExc.keyboardInterrupt = .error PyExc.keyboardInterrupt
    ∧ cmd_test_main_dispatch PyExc.systemExit = .error PyExc.systemExit
    ∧ ∀ m : String, cmd_test_main_dispatch (PyExc.otherExc m)
        = .ok ("", 0, "Error: " ++ m) :=
  ⟨rfl, rfl, rfl, fun _ => rfl⟩

/-! ### Workflow Orchestrator and Git Commit/Push Coordinator

The orchestrators (`pdd/agentic_bug_orchestrator.py`,
`pdd/agentic_e2e_fix_orchestrator.py`) and the git coordinator
(`_commit_and_push`) are not part of the repository snapshot; only their
end-to-end tests are.  They are modelled from the specification (sections
4.2 and 4.3), with the marker vocabulary and step counts of the tests. -/

/-- Modelled from the spec: the closed verdict of scanning one step's output
for control markers (spec section 9 recommends exactly this tagged variant). -/
inductive StepVerdict
  | cont
  | hardStop
  | exitSuccess
  | exitMaxCycles
deriving DecidableEq

/-- Leading marker for a failed verification step. -/
def failMarkerL : List Char := "FAIL:".toList

/-- Leading marker for a passed verification step. -/
def passMarkerL : List Char := "PASS:".toList

/-- Early-exit success marker. -/
def allTestsPassMarker : List Char := "ALL_TESTS_PASS".toList

/-- Early-exit max-cycles marker. -/
def maxCyclesMarker : List Char := "MAX_CYCLES_REACHED".toList

/-- Modelled from the spec: classify a step's raw output.  A literal
`ALL_TESTS_PASS` / `MAX_CYCLES_REACHED` at an early-exit-eligible step exits
early; a leading `FAIL:` at a designated verification step is a hard stop;
everything else — including a leading `PASS:` and the no-marker case — is
treated as continue. -/
def classifyOutput (isVerification earlyExitEligible : Bool) (out : List Char) : StepVerdict :=
  if earlyExitEligible && containsL out allTestsPassMarker then .exitSuccess
  else if earlyExitEligible && containsL out maxCyclesMarker then .exitMaxCycles
  else if isVerification && startsWithL out failMarkerL then .hardStop
  else .cont

/-- An output carrying none of the control markers. -/
def noControlMarker (out : List Char) : Bool :=
  !startsWithL out passMarkerL && !startsWithL out failMarkerL
    && !containsL out allTestsPassMarker && !containsL out maxCyclesMarker

/-- Modelled from the spec: the git state the coordinator observes — the
number of commits reachable from local HEAD but not from the upstream
tracking ref, and whether tracked file hashes differ from the last snapshot
(uncommitted changes). -/
structure GitState where
  unpushed : Nat
  dirty : Bool
deriving DecidableEq

/-- Modelled from the spec: (section 4.3) reconcile commits outstanding
working-tree changes, then independently computes the unpushed-commit count
against the upstream ref and pushes when it is positive — it does not use
working-tree cleanliness as a proxy for "nothing to push". -/
def reconcile (g : GitState) : GitState :=
  let g1 := if g.dirty then { unpushed := g.unpushed + 1, dirty := false } else g
  if g1.unpushed > 0 then { g1 with unpushed := 0 } else g1

/-- One configured workflow step: its label, the raw output the external
agent produces for it, its cost, its side effect on the git state (agents may
commit directly), and whether it is a designated verification /
early-exit-eligible step. -/
structure WStep where
  label : List Char
  output : List Char
  cost : ℚ
  gitEffect : GitState → GitState
  isVerification : Bool
  earlyExitEligible : Bool

/-- Terminal status of a workflow run. -/
inductive WStatus
  | succeeded
  | failed
  | maxCyclesReached
deriving DecidableEq

/-- Result of a workflow run: terminal status, number of agent-step
invocations, accumulated cost, final git state, and whether termination was
an early exit. -/
structure RunResult where
  status : WStatus
  invocations : Nat
  totalCost : ℚ
  git : GitState
  earlyExit : Bool

/-- Modelled from the spec: (section 4.2) execute steps strictly
sequentially; before each step compare the cost accumulator against the
budget ceiling; after each step run the coordinator; on any termination —
normal completion, early exit, hard stop or budget stop — perform a final
unconditional reconciliation pass. -/
def runSteps (budget : ℚ) : List WStep → ℚ → Nat → GitState → RunResult
  | [], cost, inv, g => ⟨.succeeded, inv, cost, reconcile g, false⟩
  | s :: rest, cost, inv, g =>
      if budget < cost then ⟨.failed, inv, cost, reconcile g, false⟩
      else
        let g1 := reconcile (s.gitEffect g)
        let cost1 := cost + s.cost
        match classifyOutput s.isVerification s.earlyExitEligible s.output with
        | .exitSuccess => ⟨.succeeded, inv + 1, cost1, reconcile g1, true⟩
        | .exitMaxCycles => ⟨.maxCyclesReached, inv + 1, cost1, reconcile g1, true⟩
        | .hardStop => ⟨.failed, inv + 1, cost1, reconcile g1, false⟩
        | .cont => runSteps budget rest cost1 (inv + 1) g1

/-- A whole workflow run from a fresh cost accumulator. -/
def runWorkflow (budget : ℚ) (steps : List WStep) (g0 : GitState) : RunResult :=
  runSteps budget steps 0 0 g0

theorem reconcile_unpushed (g : GitState) : (reconcile g).unpushed = 0 := by
  unfold reconcile
  by_cases hd : g.dirty = true
  · rw [if_pos hd]
    by_cases hp : (GitState.mk (g.unpushed + 1) false).unpushed > 0
    · rw [if_pos hp]
    · exact absurd (Nat.succ_pos g.unpushed) hp
  · rw [if_neg hd]
    by_cases hp : g.unpushed > 0
    · rw [if_pos hp]
    · rw [if_neg hp]
      omega

theorem runSteps_git_unpushed (budget : ℚ) :
    ∀ (steps : List WStep) (cost : ℚ) (inv : Nat) (g : GitState),
      (runSteps budget steps cost inv g).git.unpushed = 0 := by
  intro steps
  induction steps with
  | nil => intro cost inv g; simp [runSteps, reconcile_unpushed]
  | cons s rest ih =>
      intro cost inv g
      simp only [runSteps]
      by_cases hb : budget < cost
      · simp [hb, reconcile_unpushed]
      · simp only [hb, if_neg, if_false]
        cases classifyOutput s.isVerification s.earlyExitEligible s.output <;>
          simp [reconcile_unpushed, ih]

/-- C2: any workflow run that terminates in `Succeeded` via early exit leaves
zero commits reachable from local HEAD but not from the upstream ref —
including when a step's agent created the commit itself and the working tree
is clean at workflow end. -/
theorem push_completeness (budget : ℚ) (steps : List WStep) (g0 : GitState)
    (hs : (runWorkflow budget steps g0).status = WStatus.succeeded)
    (he : (runWorkflow budget steps g0).earlyExit = true) :
    (runWorkflow budget steps g0).git.unpushed = 0 :=
  runSteps_git_unpushed budget steps 0 0 g0

theorem runSteps_cons_cont (budget : ℚ) (s : WStep) (rest : List WStep)
    (cost : ℚ) (inv : Nat) (g : GitState) (hb : ¬ budget < cost)
    (hc : classifyOutput s.isVerification s.earlyExitEligible s.output = StepVerdict.cont) :
    runSteps budget (s :: rest) cost inv g
      = runSteps budget rest (cost + s.cost) (inv + 1) (reconcile (s.gitEffect g)) := by
  simp only [runSteps, if_neg hb, hc]

theorem runSteps_cons_exitSuccess (budget : ℚ) (s : WStep) (rest : List WStep)
    (cost : ℚ) (inv : Nat) (g : GitState) (hb : ¬ budget < cost)
    (hc : classifyOutput s.isVerification s.earlyExitEligible s.output
      = StepVerdict.exitSuccess) :
    runSteps budget (s :: rest) cost inv g
      = ⟨WStatus.succeeded, inv + 1, cost + s.cost,
          reconcile (reconcile (s.gitEffect g)), true⟩ := by
  simp only [runSteps, if_neg hb, hc]

theorem runSteps_cons_hardStop (budget : ℚ) (s : WStep) (rest : List WStep)
    (cost : ℚ) (inv : Nat) (g : GitState) (hb : ¬ budget < cost)
    (hc : classifyOutput s.isVerification s.earlyExitEligible s.output
      = StepVerdict.hardStop) :
    runSteps budget (s :: rest) cost inv g
      = ⟨WStatus.failed, inv + 1, cost + s.cost,
          reconcile (reconcile (s.gitEffect g)), false⟩ := by
  simp only [runSteps, if_neg hb, hc]

/-- Git state after the coordinator has reconciled a sequence of step
effects. -/
def gitAfter (pre : List WStep) (g : GitState) : GitState :=
  pre.foldl (fun g s => reconcile (s.gitEffect g)) g

theorem runSteps_append_cont (budget : ℚ) :
    ∀ (pre rest : List WStep) (cost : ℚ) (inv : Nat) (g : GitState),
      (∀ s ∈ pre, classifyOutput s.isVerification s.earlyExitEligible s.output
        = StepVerdict.cont) →
      (∀ s ∈ pre, 0 ≤ s.cost) →
      cost + (pre.map WStep.cost).sum ≤ budget →
      runSteps budget (pre ++ rest) cost inv g
        = runSteps budget rest (cost + (pre.map WStep.cost).sum)
            (inv + pre.length) (gitAfter pre g) := by
  intro pre
  induction pre with
  | nil =>
      intro rest cost inv g _ _ _
      simp [gitAfter]
  | cons s pre ih =>
      intro rest cost inv g hcont hcost hsum
      have hsum0 : 0 ≤ ((s :: pre).map WStep.cost).sum := by
        apply List.sum_nonneg
        intro x hx
        obtain ⟨s', hs', rfl⟩ := List.mem_map.1 hx
        exact hcost s' hs'
      have hb : ¬ budget < cost := by
        intro hlt
        have := hsum
        linarith
      have hsum1 : (cost + s.cost) + (pre.map WStep.cost).sum ≤ budget := by
        have : cost + ((s :: pre).map WStep.cost).sum
            = (cost + s.cost) + (pre.map WStep.cost).sum := by
          simp [List.map_cons, List.sum_cons]
          ring
        linarith [hsum, this.symm.le]
      rw [List.cons_append,
        runSteps_cons_cont budget s (pre ++ rest) cost inv g hb
          (hcont s (List.mem_cons_self s pre)),
        ih rest (cost + s.cost) (inv + 1) (reconcile (s.gitEffect g))
          (fun x hx => hcont x (List.mem_cons_of_mem s hx))
          (fun x hx => hcost x (List.mem_cons_of_mem s hx)) hsum1]
      have e1 : cost + s.cost + (pre.map WStep.cost).sum
          = cost + ((s :: pre).map WStep.cost).sum := by
        simp [List.map_cons, List.sum_cons]
        ring
      have e2 : inv + 1 + pre.length = inv + (s :: pre).length := by
        simp [List.length_cons]
        omega
      have e3 : gitAfter pre (reconcile (s.gitEffect g)) = gitAfter (s :: pre) g := by
        simp [gitAfter]
      rw [e1, e2, e3]

/-- The early-exit scenario of the issue-21 e2e test: step 1's agent creates
a commit (working tree clean afterwards), step 2 reports `ALL_TESTS_PASS`. -/
def earlyExitSteps : List WStep :=
  [{ label := "step1".toList, output := "Fixed the issue by modifying test_file.txt".toList,
     cost := 1, gitEffect := fun g => { unpushed := g.unpushed + 1, dirty := false },
     isVerification := false, earlyExitEligible := false },
   { label := "step2".toList, output := "ALL_TESTS_PASS - All tests are passing".toList,
     cost := 1, gitEffect := fun g => g,
     isVerification := false, earlyExitEligible := true }]

/-- C2 witness: in the concrete early-exit scenario the run succeeds via
early exit and the unpushed-commit count is 0. -/
theorem push_completeness_witness :
    (runWorkflow 100 earlyExitSteps ⟨0, false⟩).status = WStatus.succeeded
    ∧ (runWorkflow 100 earlyExitSteps ⟨0, false⟩).earlyExit = true
    ∧ (runWorkflow 100 earlyExitSteps ⟨0, false⟩).git.unpushed = 0 := by
  have hrun : runWorkflow 100 earlyExitSteps ⟨0, false⟩
      = runSteps 100 [earlyExitSteps.get ⟨1, by decide⟩] (0 + 1) 1
          (reconcile ⟨1, false⟩) := by
    rw [runWorkflow]
    exact runSteps_cons_cont 100 _ _ 0 0 ⟨0, false⟩ (by norm_num) (by decide)
  have hrun2 : runSteps 100 [earlyExitSteps.get ⟨1, by decide⟩] (0 + 1) 1
      (reconcile ⟨1, false⟩)
      = ⟨WStatus.succeeded, 2, 0 + 1 + 1,
          reconcile (reconcile (reconcile ⟨1, false⟩)), true⟩ := by
    exact runSteps_cons_exitSuccess 100 _ _ (0 + 1) 1 (reconcile ⟨1, false⟩)
      (by norm_num) (by decide)
  have h1 : (runWorkflow 100 earlyExitSteps ⟨0, false⟩).status = WStatus.succeeded := by
    rw [hrun, hrun2]
  have h2 : (runWorkflow 100 earlyExitSteps ⟨0, false⟩).earlyExit = true := by
    rw [hrun, hrun2]
  exact ⟨h1, h2, push_completeness 100 earlyExitSteps ⟨0, false⟩ h1 h2⟩

/-- C3: when a designated verification step emits output beginning with
`FAIL:` and the budget is not exceeded, the workflow terminates `Failed`
without early exit, and the number of agent-step invocations equals exactly
the number of steps up to and including the verification step — no later
step executes. -/
theorem hard_stop_precedence (budget : ℚ) (pre post : List WStep) (v : WStep)
    (g0 : GitState)
    (hcont : ∀ s ∈ pre, classifyOutput s.isVerification s.earlyExitEligible s.output
      = StepVerdict.cont)
    (hcost : ∀ s ∈ pre, 0 ≤ s.cost)
    (hsum : (pre.map WStep.cost).sum ≤ budget)
    (hver : v.isVerification = true) (hnee : v.earlyExitEligible = false)
    (hfail : startsWithL v.output failMarkerL = true) :
    (runWorkflow budget (pre ++ v :: post) g0).status = WStatus.failed
    ∧ (runWorkflow budget (pre ++ v :: post) g0).invocations = pre.length + 1
    ∧ (runWorkflow budget (pre ++ v :: post) g0).earlyExit = false := by
  have hsum0 : 0 ≤ (pre.map WStep.cost).sum := by
    apply List.sum_nonneg
    intro x hx
    obtain ⟨s', hs', rfl⟩ := List.mem_map.1 hx
    exact hcost s' hs'
  have hcv : classifyOutput v.isVerification v.earlyExitEligible v.output
      = StepVerdict.hardStop := by
    simp [classifyOutput, hver, hnee, hfail]
  have hrw : runWorkflow budget (pre ++ v :: post) g0
      = runSteps budget (v :: post) (0 + (pre.map WStep.cost).sum)
          (0 + pre.length) (gitAfter pre g0) := by
    rw [runWorkflow]
    exact runSteps_append_cont budget pre (v :: post) 0 0 g0 hcont hcost
      (by linarith)
  have hb : ¬ budget < 0 + (pre.map WStep.cost).sum := by
    intro h
    linarith
  rw [hrw, runSteps_cons_hardStop budget v post _ _ _ hb hcv]
  refine ⟨rfl, ?_, rfl⟩
  simp

/-- C4: when every configured step's raw output carries no control marker at
all — no leading `PASS:` or `FAIL:` and no early-exit marker — the
orchestrator treats each step as success-to-continue and, within budget,
terminates `Succeeded` having invoked every configured step. -/
theorem no_marker_continues (budget : ℚ) (steps : List WStep) (g0 : GitState)
    (hnm : ∀ s ∈ steps, noControlMarker s.output = true)
    (hcost : ∀ s ∈ steps, 0 ≤ s.cost)
    (hsum : (steps.map WStep.cost).sum ≤ budget) :
    (runWorkflow budget steps g0).status = WStatus.succeeded
    ∧ (runWorkflow budget steps g0).invocations = steps.length := by
  have hcont : ∀ s ∈ steps,
      classifyOutput s.isVerification s.earlyExitEligible s.output = StepVerdict.cont := by
    intro s hs
    have h := hnm s hs
    simp only [noControlMarker, Bool.and_eq_true, Bool.not_eq_true'] at h
    obtain ⟨⟨⟨h1, h2⟩, h3⟩, h4⟩ := h
    simp [classifyOutput, h1, h2, h3, h4]
  have hrw : runWorkflow budget steps g0
      = runSteps budget [] (0 + (steps.map WStep.cost).sum) (0 + steps.length)
          (gitAfter steps g0) := by
    rw [runWorkflow]
    have := runSteps_append_cont budget steps [] 0 0 g0 hcont hcost (by linarith)
    rwa [List.append_nil] at this
  rw [hrw]
  exact ⟨rfl, by simp [runSteps]⟩

/-- Steps 1-7 of the nine-step workflow of the spec scenario for C3, each
producing marker-free output at cost 1. -/
def nineStepPre : List WStep :=
  [{ label := "step1".toList, output := "Output for step1".toList, cost := 1,
     gitEffect := fun g => g, isVerification := false, earlyExitEligible := false },
   { label := "step2".toList, output := "Output for step2".toList, cost := 1,
     gitEffect := fun g => g, isVerification := false, earlyExitEligible := false },
   { label := "step3".toList, output := "Output for step3".toList, cost := 1,
     gitEffect := fun g => g, isVerification := false, earlyExitEligible := false },
   { label := "step4".toList, output := "Output for step4".toList, cost := 1,
     gitEffect := fun g => g, isVerification := false, earlyExitEligible := false },
   { label := "step5".toList, output := "Output for step5".toList, cost := 1,
     gitEffect := fun g => g, isVerification := false, earlyExitEligible := false },
   { label := "step6".toList, output := "Output for step6".toList, cost := 1,
     gitEffect := fun g => g, isVerification := false, earlyExitEligible := false },
   { label := "step7".toList, output := "Generated test".toList, cost := 1,
     gitEffect := fun g => g, isVerification := false, earlyExitEligible := false }]

/-- Step 8, the designated verification step, emitting the `FAIL:` marker of
the spec scenario. -/
def nineStepFail : WStep :=
  { label := "step8".toList,
    output := "FAIL: test only contains trivial assertions".toList, cost := 1,
    gitEffect := fun g => g, isVerification := true, earlyExitEligible := false }

/-- Step 9, which must never execute in the C3 scenario. -/
def nineStepPost : List WStep :=
  [{ label := "step9".toList, output := "Output for step9".toList, cost := 1,
     gitEffect := fun g => g, isVerification := false, earlyExitEligible := false }]

/-- C3 witness: the spec scenario — a nine-step workflow whose step 8 emits
`FAIL: test only contains trivial assertions` — terminates failed with
exactly 8 invocations, not 9. -/
theorem hard_stop_precedence_witness :
    (runWorkflow 100 (nineStepPre ++ nineStepFail :: nineStepPost) ⟨0, false⟩).status
        = WStatus.failed
    ∧ (runWorkflow 100 (nineStepPre ++ nineStepFail :: nineStepPost) ⟨0, false⟩).invocations
        = 8 := by
  have h := hard_stop_precedence 100 nineStepPre nineStepPost nineStepFail ⟨0, false⟩
    (by decide)
    (by intro s hs; fin_cases hs <;> norm_num [nineStepPre])
    (by norm_num [nineStepPre])
    (by decide) (by decide) (by decide)
  exact ⟨h.1, by rw [h.2.1]; decide⟩

/-- The eleven steps of the bug workflow with outputs carrying no control
marker, mirroring the issue-129 no-marker test: step 8 is the verification
step whose free-text output has neither `PASS:` nor `FAIL:`. -/
def elevenNoMarkerSteps : List WStep :=
  [{ label := "step1".toList, output := "Output for step1".toList, cost := 1,
     gitEffect := fun g => g, isVerification := false, earlyExitEligible := false },
   { label := "step2".toList, output := "Output for step2".toList, cost := 1,
     gitEffect := fun g => g, isVerification := false, earlyExitEligible := false },
   { label := "step3".toList, output := "Output for step3".toList, cost := 1,
     gitEffect := fun g => g, isVerification := false, earlyExitEligible := false },
   { label := "step4".toList, output := "Output for step4".toList, cost := 1,
     gitEffect := fun g => g, isVerification := false, earlyExitEligible := false },
   { label := "step5".toList, output := "Output for step5".toList, cost := 1,
     gitEffect := fun g => g, isVerification := false, earlyExitEligible := false },
   { label := "step5_5".toList, output := "Output for step5_5".toList, cost := 1,
     gitEffect := fun g => g, isVerification := false, earlyExitEligible := false },
   { label := "step6".toList, output := "Output for step6".toList, cost := 1,
     gitEffect := fun g => g, isVerification := false, earlyExitEligible := false },
   { label := "step7".toList, output := "Generated test".toList, cost := 1,
     gitEffect := fun g => g, isVerification := false, earlyExitEligible := false },
   { label := "step8".toList,
     output := "The test looks reasonable and should catch the bug.".toList, cost := 1,
     gitEffect := fun g => g, isVerification := true, earlyExitEligible := false },
   { label := "step9".toList, output := "Output for step9".toList, cost := 1,
     gitEffect := fun g => g, isVerification := false, earlyExitEligible := false },
   { label := "step10".toList, output := "Output for step10".toList, cost := 1,
     gitEffect := fun g => g, isVerification := false, earlyExitEligible := false }]

/-- C4 witness: the eleven-step no-marker run succeeds with all eleven steps
invoked, even though the verification step's output carried no marker. -/
theorem no_marker_continues_witness :
    (runWorkflow 100 elevenNoMarkerSteps ⟨0, false⟩).status = WStatus.succeeded
    ∧ (runWorkflow 100 elevenNoMarkerSteps ⟨0, false⟩).invocations = 11 := by
  have h := no_marker_continues 100 elevenNoMarkerSteps ⟨0, false⟩
    (by decide)
    (by intro s hs; fin_cases hs <;> norm_num [elevenNoMarkerSteps])
    (by norm_num [elevenNoMarkerSteps])
  exact ⟨h.1, by rw [h.2]; decide⟩

/-! ### External Agent Runner: Gemini argument vector

`pdd/agentic_common.py` (`_run_with_provider`) is not part of the repository
snapshot; the Google-provider argument vector is modelled from the spec
(section 4.4: the non-interactive flag must immediately precede the
instruction text) with the exact structure pinned by the repository's
issue-68 e2e test:
`[cli_path, "-p", instruction, "--yolo", "--output-format", "json"]`. -/

/-- Modelled from the spec: the instruction text handed to the agent CLI,
referencing the temp prompt file by name. -/
def gemini_instruction (promptFileName : List Char) : List Char :=
  "Read the file ".toList ++ promptFileName
    ++ " for your full instructions and execute them.".toList

/-- Modelled from the spec: the argument vector the External Agent Runner
constructs for the Google (Gemini) provider. -/
def gemini_command (cli_path promptFileName : List Char) : List (List Char) :=
  [cli_path, "-p".toList, gemini_instruction promptFileName, "--yolo".toList,
   "--output-format".toList, "json".toList]

/-- C8: for every invocation, regardless of CLI path or prompt file name, the
Gemini argument vector carries the non-interactive `-p` flag at index 1,
immediately preceding the instruction text at index 2, with `--yolo` and
`--output-format json` after it. -/
theorem gemini_p_flag_position (cli_path promptFileName : List Char) :
    (gemini_command cli_path promptFileName).get? 0 = some cli_path
    ∧ (gemini_command cli_path promptFileName).get? 1 = some "-p".toList
    ∧ (gemini_command cli_path promptFileName).get? 2
        = some (gemini_instruction promptFileName)
    ∧ (gemini_command cli_path promptFileName).get? 3 = some "--yolo".toList
    ∧ (gemini_command cli_path promptFileName).get? 4 = some "--output-format".toList
    ∧ (gemini_command cli_path promptFileName).get? 5 = some "json".toList
    ∧ (gemini_command cli_path promptFileName).length = 6 :=
  ⟨rfl, rfl, rfl, rfl, rfl, rfl, rfl⟩

end PDD
